import Mathlib

set_option maxRecDepth 4000

/-! Shallow embedding of the feednotes terminal note-taking application
(src/main.rs): the note/feed data model, the derived filtered feed view,
and the modal input dispatcher (main loop plus textarea_event), together
with proofs about them.  Note text is modeled as `List Char`; timestamps
(`chrono::DateTime<Local>`) are modeled abstractly as `Nat`. -/

/-- A note: user text (may contain embedded newlines) plus creation
timestamp (`struct Note { text, date }` in main.rs). -/
structure Note where
  text : List Char
  date : Nat
deriving DecidableEq

/-- The note store: ordered collection of notes, front = newest
(`struct Feed { notes: VecDeque<Note> }`). -/
structure Feed where
  notes : List Note
deriving DecidableEq

/-- `Feed::new()`: the empty store. -/
def Feed.new : Feed := ⟨[]⟩

/-- The derived feed view: an ordered sequence of store positions
(`struct FeedView { refs: Vec<usize> }`). -/
structure FeedView where
  refs : List Nat
deriving DecidableEq

/-- Rust `str::contains(pat)`: some suffix of the haystack starts with
the needle (literal, case-sensitive substring search). -/
def strContains (hay pat : List Char) : Bool :=
  hay.tails.any (fun t => pat.isPrefixOf t)

/-- `FeedView::filter(feed, pat)` from main.rs: if the pattern is empty,
all positions `0..len` in order; otherwise `enumerate`-`filter`-`map` of
the positions whose note text contains `pat` as a substring
(Rust `str::contains`, embedded as `strContains`). -/
def FeedView.filter (feed : Feed) (pat : List Char) : FeedView :=
  if pat = [] then
    { refs := List.range feed.notes.length }
  else
    { refs :=
        ((feed.notes.enum).filter
          (fun p => strContains p.2.text pat)).map Prod.fst }

/-- Rust `str::split_inclusive('\n')`: chunks of the text, each chunk
keeping its terminating newline; no empty trailing chunk. -/
def splitInclusiveNl : List Char → List (List Char)
  | [] => []
  | c :: rest =>
    if c = '\n' then [c] :: splitInclusiveNl rest
    else
      match splitInclusiveNl rest with
      | [] => [[c]]
      | l :: ls => (c :: l) :: ls

/-- Strip one trailing line ending (`"\n"` or `"\r\n"`) from a chunk,
as Rust `str::lines` does to each inclusive chunk. -/
def stripLineEnding (l : List Char) : List Char :=
  match l.reverse with
  | [] => l
  | c :: rest =>
    if c = '\n' then
      match rest with
      | [] => rest.reverse
      | c2 :: rest2 => if c2 = '\r' then rest2.reverse else rest.reverse
    else l

/-- Rust `str::lines()`: split inclusively on newline, then strip the
line ending of every chunk.  The final line ending is optional and
produces no empty trailing line. -/
def rustLines (t : List Char) : List (List Char) :=
  (splitInclusiveNl t).map stripLineEnding

/-- Rust `slice::join("\n")` on the textarea's lines. -/
def joinNl : List (List Char) → List Char
  | [] => []
  | [l] => l
  | l :: ls => l ++ '\n' :: joinNl ls

/-- The indent chord's line transformation (main.rs `>` `>` branch):
`String::from("    ") + line`. -/
def indentLine (l : List Char) : List Char := ' ' :: ' ' :: ' ' :: ' ' :: l

/-- The outdent chord's line transformation (main.rs `<` `<` branch):
`chars().skip_while(|c| { count += 1; *c == ' ' && count <= 4 })`, i.e.
drop leading spaces while the running count stays at most four. -/
def outdentChars : Nat → List Char → List Char
  | _, [] => []
  | count, c :: rest =>
    if c = ' ' ∧ count + 1 ≤ 4 then outdentChars (count + 1) rest
    else c :: rest

/-- Top-level focus (`enum Focus { NewNote, Feed, Filter }`). -/
inductive Focus where
  | newNote
  | feed
  | filter
deriving DecidableEq

/-- Editing sub-mode (`enum InputMode { Normal, Insert, View }`). -/
inductive InputMode where
  | normal
  | insert
  | view
deriving DecidableEq

/-- Editing target (`enum FeedEditingMode { New, Edit(usize) }`), captured
when an edit session starts. -/
inductive FeedEditingMode where
  | new
  | edit (i : Nat)
deriving DecidableEq

/-- Key payload of one input event (crossterm `Key`): a character, or a
named key; `other` stands for every key the dispatcher ignores. -/
inductive Key where
  | char (c : Char)
  | esc
  | backspace
  | enter
  | other
deriving DecidableEq

/-- One input event (`tui_textarea::Input`): key plus control modifier.
The dispatcher's patterns ignore `ctrl` except in the redo arm. -/
structure Input where
  key : Key
  ctrl : Bool
deriving DecidableEq

/-- Cursor motions used by the dispatcher (`tui_textarea::CursorMove`). -/
inductive CursorMove where
  | back
  | forward
  | up
  | down
  | head
  | lineEnd
  | top
  | bottom
  | wordForward
  | wordBack
  | wordEnd
  | jump (y x : Nat)
deriving DecidableEq

/-- Modelled from the spec: the Editable Text Buffer (external
collaborator `tui_textarea::TextArea`, not part of this repository's
source).  Per the spec's data model it is an ordered sequence of line
strings plus a cursor, an optional selection anchor and one implicit
clipboard slot; the undo/redo history is not modeled since no claim
depends on it. -/
structure TextArea where
  lines : List (List Char)
  cursor : Nat × Nat
  selectionStart : Option (Nat × Nat)
  clipboard : List Char
deriving DecidableEq

/-- Modelled from the spec: `TextArea::default()` is a one-empty-line
buffer with the cursor at the origin. -/
def TextArea.default : TextArea :=
  { lines := [[]], cursor := (0, 0), selectionStart := none, clipboard := [] }

/-- Modelled from the spec: `TextArea::new(lines)`; an empty line list
yields the one-empty-line buffer. -/
def TextArea.new (ls : List (List Char)) : TextArea :=
  { lines := if ls = [] then [[]] else ls, cursor := (0, 0),
    selectionStart := none, clipboard := [] }

/-- The line the cursor row points at (total: out-of-range reads give the
empty line; the buffer invariant keeps the cursor in range). -/
def TextArea.lineAt (ta : TextArea) (r : Nat) : List Char :=
  (ta.lines.get? r).getD []

/-- Column of the next word boundary after `c` on line `l` (skip a run of
non-spaces, then a run of spaces). -/
def wordForwardCol (l : List Char) (c : Nat) : Nat :=
  let after := l.drop c
  let a := (after.takeWhile (fun ch => ¬ ch = ' ')).length
  let b := ((after.drop a).takeWhile (fun ch => ch = ' ')).length
  min (c + a + b) l.length

/-- Column of the previous word boundary before `c` on line `l`. -/
def wordBackCol (l : List Char) (c : Nat) : Nat :=
  let before := (l.take c).reverse
  let a := (before.takeWhile (fun ch => ch = ' ')).length
  let b := ((before.drop a).takeWhile (fun ch => ¬ ch = ' ')).length
  c - a - b

/-- Column of the end of the word at or after the cursor. -/
def wordEndCol (l : List Char) (c : Nat) : Nat :=
  let after := l.drop (c + 1)
  let a := (after.takeWhile (fun ch => ch = ' ')).length
  let b := ((after.drop a).takeWhile (fun ch => ¬ ch = ' ')).length
  min (c + 1 + a + b) l.length

/-- Modelled from the spec: cursor motion of the external text buffer
(§6 collaborator contract), with clamping to the buffer bounds. -/
def TextArea.moveCursor (ta : TextArea) (m : CursorMove) : TextArea :=
  let r := ta.cursor.1
  let c := ta.cursor.2
  let clampRow := fun (y : Nat) => min y (ta.lines.length - 1)
  let clampCol := fun (y x : Nat) => min x (ta.lineAt y).length
  match m with
  | .back => { ta with cursor := (r, c - 1) }
  | .forward => { ta with cursor := (r, clampCol r (c + 1)) }
  | .up => { ta with cursor := (r - 1, clampCol (r - 1) c) }
  | .down =>
    { ta with cursor := (clampRow (r + 1), clampCol (clampRow (r + 1)) c) }
  | .head => { ta with cursor := (r, 0) }
  | .lineEnd => { ta with cursor := (r, (ta.lineAt r).length) }
  | .top => { ta with cursor := (0, clampCol 0 c) }
  | .bottom =>
    { ta with cursor :=
        (clampRow (ta.lines.length - 1),
         clampCol (clampRow (ta.lines.length - 1)) c) }
  | .wordForward => { ta with cursor := (r, wordForwardCol (ta.lineAt r) c) }
  | .wordBack => { ta with cursor := (r, wordBackCol (ta.lineAt r) c) }
  | .wordEnd => { ta with cursor := (r, wordEndCol (ta.lineAt r) c) }
  | .jump y x => { ta with cursor := (clampRow y, clampCol (clampRow y) x) }

/-- Modelled from the spec: split the current line at the cursor
(`insert_newline`). -/
def TextArea.insertNewline (ta : TextArea) : TextArea :=
  let r := ta.cursor.1
  let c := ta.cursor.2
  let l := ta.lineAt r
  { ta with
    lines := ta.lines.take r ++ [l.take c, l.drop c] ++ ta.lines.drop (r + 1),
    cursor := (r + 1, 0) }

/-- Modelled from the spec: insert one character at the cursor. -/
def TextArea.insertChar (ta : TextArea) (ch : Char) : TextArea :=
  let r := ta.cursor.1
  let c := ta.cursor.2
  let l := ta.lineAt r
  { ta with lines := ta.lines.set r (l.take c ++ ch :: l.drop c),
            cursor := (r, c + 1) }

/-- Modelled from the spec: delete the character at the cursor
(`delete_next_char`), kept within the current line. -/
def TextArea.deleteNextChar (ta : TextArea) : TextArea :=
  let r := ta.cursor.1
  let c := ta.cursor.2
  let l := ta.lineAt r
  { ta with lines := ta.lines.set r (l.take c ++ l.drop (c + 1)) }

/-- Modelled from the spec: delete the character before the cursor
(insert-mode backspace), kept within the current line. -/
def TextArea.deleteCharBefore (ta : TextArea) : TextArea :=
  let r := ta.cursor.1
  let c := ta.cursor.2
  let l := ta.lineAt r
  if c = 0 then ta
  else
    { ta with lines := ta.lines.set r (l.take (c - 1) ++ l.drop c),
              cursor := (r, c - 1) }

/-- Modelled from the spec: cut from the cursor to the end of the line
into the clipboard slot (`delete_line_by_end`). -/
def TextArea.deleteLineByEnd (ta : TextArea) : TextArea :=
  let r := ta.cursor.1
  let c := ta.cursor.2
  let l := ta.lineAt r
  { ta with lines := ta.lines.set r (l.take c), clipboard := l.drop c }

/-- Modelled from the spec: delete the line break before the cursor line,
merging it into the previous line (`delete_newline`). -/
def TextArea.deleteNewline (ta : TextArea) : TextArea :=
  let r := ta.cursor.1
  if r = 0 then ta
  else
    { ta with
      lines := ta.lines.take (r - 1) ++
        [ta.lineAt (r - 1) ++ ta.lineAt r] ++ ta.lines.drop (r + 1),
      cursor := (r - 1, (ta.lineAt (r - 1)).length) }

/-- Modelled from the spec: anchor a selection at the cursor. -/
def TextArea.startSelection (ta : TextArea) : TextArea :=
  { ta with selectionStart := some ta.cursor }

/-- Modelled from the spec: drop the selection anchor. -/
def TextArea.cancelSelection (ta : TextArea) : TextArea :=
  { ta with selectionStart := none }

/-- Modelled from the spec: cut the selected range into the clipboard
(same-line model; no claim depends on the cut text itself). -/
def TextArea.cut (ta : TextArea) : TextArea :=
  match ta.selectionStart with
  | none => ta
  | some (r0, c0) =>
    let r := ta.cursor.1
    let c := ta.cursor.2
    if r0 = r then
      let lo := min c0 c
      let hi := max c0 c
      let l := ta.lineAt r
      { ta with lines := ta.lines.set r (l.take lo ++ l.drop hi),
                clipboard := (l.take hi).drop lo,
                cursor := (r, lo), selectionStart := none }
    else { ta with selectionStart := none }

/-- Modelled from the spec: copy the selected range into the clipboard
without removing it (same-line model). -/
def TextArea.copy (ta : TextArea) : TextArea :=
  match ta.selectionStart with
  | none => ta
  | some (r0, c0) =>
    let r := ta.cursor.1
    let c := ta.cursor.2
    if r0 = r then
      let lo := min c0 c
      let hi := max c0 c
      let l := ta.lineAt r
      { ta with clipboard := (l.take hi).drop lo, selectionStart := none }
    else { ta with selectionStart := none }

/-- Modelled from the spec: paste the clipboard at the cursor. -/
def TextArea.paste (ta : TextArea) : TextArea :=
  let r := ta.cursor.1
  let c := ta.cursor.2
  let l := ta.lineAt r
  { ta with lines := ta.lines.set r (l.take c ++ ta.clipboard ++ l.drop c),
            cursor := (r, c + ta.clipboard.length) }

/-- Modelled from the spec: undo one edit step.  The undo stack is not
modeled (no claim depends on it), so this is the identity. -/
def TextArea.undo (ta : TextArea) : TextArea := ta

/-- Modelled from the spec: redo one edit step.  The redo stack is not
modeled (no claim depends on it), so this is the identity. -/
def TextArea.redo (ta : TextArea) : TextArea := ta

/-- Modelled from the spec: delete the word before the cursor
(`delete_word`). -/
def TextArea.deleteWord (ta : TextArea) : TextArea :=
  let r := ta.cursor.1
  let c := ta.cursor.2
  let l := ta.lineAt r
  let t := wordBackCol l c
  { ta with lines := ta.lines.set r (l.take t ++ l.drop c),
            clipboard := (l.take c).drop t, cursor := (r, t) }

/-- Modelled from the spec: delete the word after the cursor
(`delete_next_word`). -/
def TextArea.deleteNextWord (ta : TextArea) : TextArea :=
  let r := ta.cursor.1
  let c := ta.cursor.2
  let l := ta.lineAt r
  let t := wordForwardCol l c
  { ta with lines := ta.lines.set r (l.take c ++ l.drop t),
            clipboard := (l.take t).drop c }

/-- Modelled from the spec: insert-mode character input
(`TextArea::input`): characters insert themselves, Enter breaks the
line, Backspace deletes backwards; other keys do nothing. -/
def TextArea.input (ta : TextArea) (i : Input) : TextArea :=
  match i.key with
  | .char ch => ta.insertChar ch
  | .enter => ta.insertNewline
  | .backspace => ta.deleteCharBefore
  | _ => ta

/-- `textarea_event(event, textarea, focus, inputmode)` from main.rs,
embedded with an explicit look-ahead queue `pending` for the nested
blocking `event::read()` calls of the multi-key sequences; `none` means
the function would block for a second (or third) key that the queue does
not hold.  The arm order and the per-arm mode guards mirror the source
match. -/
def textarea_event (i : Input) (ta : TextArea) (focus : Focus)
    (mode : InputMode) (pending : List Input) :
    Option (TextArea × Focus × InputMode × List Input) :=
  match i.key with
  | .backspace =>
    if mode = InputMode.normal then some (ta, Focus.feed, mode, pending)
    else some (ta, focus, mode, pending)
  | .esc =>
    if mode = InputMode.view then
      some (ta.cancelSelection, focus, InputMode.normal, pending)
    else some (ta, focus, mode, pending)
  | .char ch =>
    if ch = 'i' then
      if mode = InputMode.normal then
        some (ta, focus, InputMode.insert, pending)
      else some (ta, focus, mode, pending)
    else if ch = 'A' then
      if mode = InputMode.normal then
        some (ta.moveCursor .lineEnd, focus, InputMode.insert, pending)
      else some (ta, focus, mode, pending)
    else if ch = 'o' then
      if mode = InputMode.normal then
        some ((ta.moveCursor .lineEnd).insertNewline, focus,
          InputMode.insert, pending)
      else some (ta, focus, mode, pending)
    else if ch = 'O' then
      if mode = InputMode.normal then
        some (((ta.moveCursor .head).insertNewline).moveCursor .up, focus,
          InputMode.insert, pending)
      else some (ta, focus, mode, pending)
    else if ch = 'p' then some (ta.paste, focus, mode, pending)
    else if ch = 'u' then some (ta.undo, focus, mode, pending)
    else if ch = 'r' then
      if i.ctrl then some (ta.redo, focus, mode, pending)
      else some (ta, focus, mode, pending)
    else if ch = 'v' then
      if mode = InputMode.normal then
        some (ta.startSelection, focus, InputMode.view, pending)
      else some (ta, focus, mode, pending)
    else if ch = 'x' then some (ta.deleteNextChar, focus, mode, pending)
    else if ch = '>' then
      if mode = InputMode.normal then
        match pending with
        | [] => none
        | e2 :: rest =>
          if e2.key = Key.char '>' then
            let y := ta.cursor.1
            let x := ta.cursor.2
            let newLines := ta.lines.set y (indentLine (ta.lineAt y))
            some ((TextArea.new newLines).moveCursor (CursorMove.jump y x),
              focus, mode, rest)
          else some (ta, focus, mode, rest)
      else some (ta, focus, mode, pending)
    else if ch = '<' then
      if mode = InputMode.normal then
        match pending with
        | [] => none
        | e2 :: rest =>
          if e2.key = Key.char '<' then
            let y := ta.cursor.1
            let x := ta.cursor.2
            let newLines := ta.lines.set y (outdentChars 0 (ta.lineAt y))
            some ((TextArea.new newLines).moveCursor (CursorMove.jump y x),
              focus, mode, rest)
          else some (ta, focus, mode, rest)
      else some (ta, focus, mode, pending)
    else if ch = 'h' then some (ta.moveCursor .back, focus, mode, pending)
    else if ch = 'j' then some (ta.moveCursor .down, focus, mode, pending)
    else if ch = 'k' then some (ta.moveCursor .up, focus, mode, pending)
    else if ch = 'l' then some (ta.moveCursor .forward, focus, mode, pending)
    else if ch = 'w' then
      some (ta.moveCursor .wordForward, focus, mode, pending)
    else if ch = 'b' then
      some (ta.moveCursor .wordBack, focus, mode, pending)
    else if ch = 'e' then some (ta.moveCursor .wordEnd, focus, mode, pending)
    else if ch = '^' then some (ta.moveCursor .head, focus, mode, pending)
    else if ch = '$' then some (ta.moveCursor .lineEnd, focus, mode, pending)
    else if ch = 'g' then
      match pending with
      | [] => none
      | e2 :: rest =>
        if e2.key = Key.char 'g' then
          some (ta.moveCursor .top, focus, mode, rest)
        else some (ta, focus, mode, rest)
    else if ch = 'G' then some (ta.moveCursor .bottom, focus, mode, pending)
    else if ch = 'd' then
      match mode with
      | .normal =>
        match pending with
        | [] => none
        | e2 :: rest =>
          if e2.key = Key.char 'd' then
            some (((((ta.moveCursor .head).deleteLineByEnd).deleteNewline
              ).moveCursor .down), focus, mode, rest)
          else if e2.key = Key.char 'w' then
            some ((((ta.startSelection).moveCursor .wordForward).cut
              ).cancelSelection, focus, mode, rest)
          else if e2.key = Key.char 'b' then
            some (ta.deleteWord, focus, mode, rest)
          else if e2.key = Key.char 'i' then
            match rest with
            | [] => none
            | e3 :: rest2 =>
              if e3.key = Key.char 'w' then
                some ((ta.moveCursor .wordBack).deleteNextWord, focus, mode,
                  rest2)
              else some (ta, focus, mode, rest2)
          else some (ta, focus, mode, rest)
      | .view =>
        some ((ta.moveCursor .forward).cut, focus, InputMode.normal, pending)
      | .insert => some (ta, focus, mode, pending)
    else if ch = 'y' then
      if mode = InputMode.view then
        some (((ta.moveCursor .forward).copy).cancelSelection, focus,
          InputMode.normal, pending)
      else some (ta, focus, mode, pending)
    else some (ta, focus, mode, pending)
  | _ => some (ta, focus, mode, pending)

/-- Selection-cursor step of the external list widget
(`ListState::next`), modelled from the spec's transition table. -/
def listNext : Option Nat → Option Nat
  | some i => some (i + 1)
  | none => some 0

/-- Selection-cursor step of the external list widget
(`ListState::previous`): saturating decrement, modelled from the spec
("move Selection Cursor back by one (clamped)"). -/
def listPrevious : Option Nat → Option Nat
  | some i => some (i - 1)
  | none => some 0

/-- Modelled from the spec: the re-clamp of the Selection Cursor that the
render pass applies against the current Feed View length ("Must be
re-clamped to `0 ..= len(FeedView)-1` (or `None` if empty) after every
Feed View recomputation"). -/
def clampSelection (len : Nat) : Option Nat → Option Nat
  | none => none
  | some i => if len = 0 then none else some (min i (len - 1))

/-- The mutable state of the main loop: note store, derived feed view,
focus, list-selection cursor, textarea buffer, filter string, editing
sub-mode and editing target. -/
structure AppState where
  feed : Feed
  feedView : FeedView
  focus : Focus
  selected : Option Nat
  textarea : TextArea
  filter : List Char
  inputmode : InputMode
  feedEditingMode : FeedEditingMode
deriving DecidableEq

/-- Outcome of one main-loop iteration: continue with a new state, quit,
panic on an out-of-bounds index, or block for a key the input queue does
not hold. -/
inductive StepResult where
  | next (s : AppState) (rest : List Input)
  | quit (s : AppState) (rest : List Input)
  | panic
  | blocked
deriving DecidableEq

/-- One iteration of the input half of the main loop of main.rs, driven
by a queue of input events (the head is the event `event::read()`
returns; multi-key sequences consume further events from the queue).
`now` stands for `chrono::offset::Local::now()` at this iteration.
Out-of-bounds `Vec`/`VecDeque` indexing is `StepResult.panic`;
`VecDeque::remove` does not panic and is embedded as `List.eraseIdx`. -/
def mainStep (now : Nat) (s : AppState) : List Input → StepResult
  | [] => .blocked
  | e :: rest =>
    match s.focus with
    | .feed =>
      match e.key with
      | .char c =>
        if c = 'q' then .quit s rest
        else if c = 'j' then .next { s with selected := listNext s.selected } rest
        else if c = 'k' then
          .next { s with selected := listPrevious s.selected } rest
        else if c = 'd' then
          match s.selected with
          | none => .next s rest
          | some sel =>
            match rest with
            | [] => .blocked
            | e2 :: rest2 =>
              if e2.key = Key.char 'd' then
                match s.feedView.refs.get? sel with
                | none => .panic
                | some i =>
                  let feed2 : Feed := ⟨s.feed.notes.eraseIdx i⟩
                  .next { s with feed := feed2,
                                 feedView := FeedView.filter feed2 s.filter,
                                 selected := listPrevious s.selected } rest2
              else .next s rest2
        else if c = 'n' then
          .next { s with focus := Focus.newNote, textarea := TextArea.default,
                         feedEditingMode := FeedEditingMode.new } rest
        else if c = 'i' then
          match s.selected with
          | none => .next s rest
          | some sel =>
            match s.feedView.refs.get? sel with
            | none => .panic
            | some i =>
              match s.feed.notes.get? i with
              | none => .panic
              | some note =>
                .next { s with focus := Focus.newNote,
                               feedEditingMode := FeedEditingMode.edit i,
                               textarea := TextArea.new (rustLines note.text) }
                  rest
        else if c = '/' then
          .next { s with focus := Focus.filter,
                         textarea :=
                           (TextArea.new [s.filter]).moveCursor .lineEnd,
                         inputmode := InputMode.insert } rest
        else .next s rest
      | _ => .next s rest
    | .newNote =>
      match s.inputmode with
      | .insert =>
        match e.key with
        | .esc => .next { s with inputmode := InputMode.normal } rest
        | _ => .next { s with textarea := s.textarea.input e } rest
      | _ =>
        if e.key = Key.char 'W' ∧ s.inputmode = InputMode.normal then
          match s.feedEditingMode with
          | .new =>
            let feed2 : Feed :=
              ⟨{ text := joinNl s.textarea.lines, date := now } ::
                s.feed.notes⟩
            .next { s with feed := feed2,
                           feedView := FeedView.filter feed2 s.filter,
                           focus := Focus.feed } rest
          | .edit i =>
            match s.feedView.refs.get? i with
            | none => .panic
            | some j =>
              match s.feed.notes.get? j with
              | none => .panic
              | some old =>
                let feed2 : Feed :=
                  ⟨s.feed.notes.set j
                    { text := joinNl s.textarea.lines, date := old.date }⟩
                .next { s with feed := feed2, focus := Focus.feed } rest
        else
          match textarea_event e s.textarea s.focus s.inputmode rest with
          | none => .blocked
          | some (ta2, f2, m2, rest2) =>
            .next { s with textarea := ta2, focus := f2, inputmode := m2 }
              rest2
    | .filter =>
      if e.key = Key.enter then
        let filter2 := s.textarea.lines.flatten
        .next { s with filter := filter2, focus := Focus.feed,
                       feedView := FeedView.filter s.feed filter2 } rest
      else
        match s.inputmode with
        | .insert =>
          match e.key with
          | .esc => .next { s with inputmode := InputMode.normal } rest
          | _ => .next { s with textarea := s.textarea.input e } rest
        | _ =>
          match textarea_event e s.textarea s.focus s.inputmode rest with
          | none => .blocked
          | some (ta2, f2, m2, rest2) =>
            .next { s with textarea := ta2, focus := f2, inputmode := m2 }
              rest2

/-- Kinds of I/O failure `File::open` can report; the claims distinguish
a missing file from every other failure, the source's `Err(_)` does
not. -/
inductive IOError where
  | notFound
  | permissionDenied
  | otherError
deriving DecidableEq

/-- The startup load of the persistence file (main.rs lines 38-47):
`match File::open(path) { Ok(file) => serde_json::from_reader(reader)?,
Err(_) => Feed::new() }`.  `openResult` is what `File::open` returned and
`parse` is `serde_json::from_reader` on the opened file's content; an
`Except.error` result is the `?` operator aborting `main` before
`ratatui::init()` runs. -/
def loadFeed {α ε : Type} (openResult : Except IOError α)
    (parse : α → Except ε Feed) : Except ε Feed :=
  match openResult with
  | .ok file => parse file
  | .error _ => .ok Feed.new

/-- The text an edit session would store if the user opens a note and
commits immediately: the note text split by `str::lines()` (main.rs line
184-190), loaded into the textarea, and joined back with `"\n"` at commit
(main.rs lines 214/222). -/
def openThenCommitText (t : List Char) : List Char :=
  joinNl ((TextArea.new (rustLines t)).lines)

/-- Concrete state for C1: notes (front to back) `"x"`, `"ay"`, `"az"`,
active filter `"a"` (so the feed view is `[1, 2]`), with an edit session
open on store position 1 (the note `"ay"`, selected as feed-view entry 0)
and the buffer holding `"new"`. -/
def c1State : AppState :=
  { feed := ⟨[⟨['x'], 0⟩, ⟨['a', 'y'], 1⟩, ⟨['a', 'z'], 2⟩]⟩,
    feedView := ⟨[1, 2]⟩, focus := Focus.newNote, selected := some 0,
    textarea := TextArea.new [['n', 'e', 'w']], filter := ['a'],
    inputmode := InputMode.normal,
    feedEditingMode := FeedEditingMode.edit 1 }

/-- Concrete state for C2: one note `"a"`, filter `"a"` (feed view
`[0]`), an edit session open on position 0 with the buffer edited to
`"b"`. -/
def c2State : AppState :=
  { feed := ⟨[⟨['a'], 0⟩]⟩, feedView := ⟨[0]⟩, focus := Focus.newNote,
    selected := some 0, textarea := TextArea.new [['b']], filter := ['a'],
    inputmode := InputMode.normal,
    feedEditingMode := FeedEditingMode.edit 0 }

/-- The state C2's edit commit produces: the note text is `"b"` now, but
the feed view still holds the stale reference list `[0]`. -/
def c2After : AppState :=
  { c2State with feed := ⟨[⟨['b'], 0⟩]⟩, focus := Focus.feed }

/-- Concrete state for the C4 witness: two notes, empty filter, feed view
`[0, 1]`, second entry selected. -/
def c4WitState : AppState :=
  { feed := ⟨[⟨['a'], 0⟩, ⟨['b'], 1⟩]⟩, feedView := ⟨[0, 1]⟩,
    focus := Focus.feed, selected := some 1, textarea := TextArea.default,
    filter := [], inputmode := InputMode.normal,
    feedEditingMode := FeedEditingMode.new }

/-- Concrete state for the C5 witness: empty store, a new-note session
with buffer `"hi"`. -/
def c5WitState : AppState :=
  { feed := ⟨[]⟩, feedView := ⟨[]⟩, focus := Focus.newNote, selected := none,
    textarea := TextArea.new [['h', 'i']], filter := [],
    inputmode := InputMode.normal, feedEditingMode := FeedEditingMode.new }

/-- Concrete state for the C6 witness: one note, an edit session open in
normal mode with unsaved changes in the buffer. -/
def c6WitState : AppState :=
  { feed := ⟨[⟨['a'], 0⟩]⟩, feedView := ⟨[0]⟩, focus := Focus.newNote,
    selected := some 0, textarea := TextArea.new [['z']], filter := [],
    inputmode := InputMode.normal,
    feedEditingMode := FeedEditingMode.edit 0 }

/-- Concrete feed-browsing state for the C7 witness (a selection exists,
so a `d` prefix is pending a confirm key). -/
def c7FeedState : AppState :=
  { feed := ⟨[⟨['a'], 0⟩, ⟨['b'], 1⟩]⟩, feedView := ⟨[0, 1]⟩,
    focus := Focus.feed, selected := some 0, textarea := TextArea.default,
    filter := [], inputmode := InputMode.normal,
    feedEditingMode := FeedEditingMode.new }

/-- Concrete buffer-editing state for the C7 witness (normal mode inside
a new-note session). -/
def c7BufState : AppState :=
  { feed := ⟨[⟨['a'], 0⟩]⟩, feedView := ⟨[0]⟩, focus := Focus.newNote,
    selected := some 0, textarea := TextArea.new [[' ', 'a', 'b']],
    filter := [], inputmode := InputMode.normal,
    feedEditingMode := FeedEditingMode.new }

example : FeedView.filter ⟨[⟨['a'], 0⟩, ⟨['b'], 1⟩, ⟨['a','b'], 2⟩]⟩ ['a']
    = ⟨[0, 2]⟩ := by decide

example : FeedView.filter ⟨[⟨['a'], 0⟩, ⟨['b'], 1⟩]⟩ [] = ⟨[0, 1]⟩ := by
  decide

example : rustLines ['a', '\n'] = [['a']] := by decide
example : rustLines ['a', '\n', '\n', 'b'] = [['a'], [], ['b']] := by decide
example : rustLines [] = [] := by decide
example : rustLines ['\n'] = [[]] := by decide
example : rustLines ['a', '\r', '\n', 'b'] = [['a'], ['b']] := by decide
example : joinNl [['a'], [], ['b']] = ['a', '\n', '\n', 'b'] := by decide
example : outdentChars 0 [' ', ' ', 'a'] = ['a'] := by decide
example : outdentChars 0 [' ', ' ', ' ', ' ', ' ', 'a'] = [' ', 'a'] := by
  decide

example :
    mainStep 7
      { feed := ⟨[⟨['a'], 0⟩, ⟨['b'], 1⟩]⟩, feedView := ⟨[0, 1]⟩,
        focus := Focus.feed, selected := some 1,
        textarea := TextArea.default, filter := [],
        inputmode := InputMode.normal, feedEditingMode := FeedEditingMode.new }
      [⟨Key.char 'd', false⟩, ⟨Key.char 'd', false⟩] =
    StepResult.next
      { feed := ⟨[⟨['a'], 0⟩]⟩, feedView := ⟨[0]⟩,
        focus := Focus.feed, selected := some 0,
        textarea := TextArea.default, filter := [],
        inputmode := InputMode.normal, feedEditingMode := FeedEditingMode.new }
      [] := by decide

example :
    mainStep 7
      { feed := ⟨[]⟩, feedView := ⟨[]⟩, focus := Focus.newNote,
        selected := none, textarea := TextArea.new [['h', 'i']], filter := [],
        inputmode := InputMode.normal, feedEditingMode := FeedEditingMode.new }
      [⟨Key.char 'W', false⟩] =
    StepResult.next
      { feed := ⟨[⟨['h', 'i'], 7⟩]⟩, feedView := ⟨[0]⟩, focus := Focus.feed,
        selected := none, textarea := TextArea.new [['h', 'i']], filter := [],
        inputmode := InputMode.normal, feedEditingMode := FeedEditingMode.new }
      [] := by decide

lemma fn_strContains_iff (hay pat : List Char) :
    strContains hay pat = true ↔ pat <:+: hay := by
  rw [List.infix_iff_prefix_suffix]
  simp only [strContains, List.any_eq_true, List.mem_tails,
    List.isPrefixOf_iff_prefix]
  exact ⟨fun ⟨t, h1, h2⟩ => ⟨t, h2, h1⟩, fun ⟨t, h1, h2⟩ => ⟨t, h2, h1⟩⟩

lemma fn_enumFrom_filter_length {α : Type} (Q : α → Bool) (l : List α) :
    ∀ n : Nat,
      ((List.enumFrom n l).filter (fun p => Q p.2)).length = l.countP Q := by
  induction l with
  | nil => intro n; simp
  | cons a l ih =>
    intro n
    cases hQ : Q a <;>
      simp [List.enumFrom, List.filter_cons, hQ, List.countP_cons, ih (n + 1)]

lemma fn_mem_enumFrom_filter {α : Type} (Q : α → Bool) (l : List α) :
    ∀ n i : Nat,
      (i ∈ ((List.enumFrom n l).filter (fun p => Q p.2)).map Prod.fst) ↔
        ∃ j, ∃ h : j < l.length, i = n + j ∧ Q (l.get ⟨j, h⟩) = true := by
  induction l with
  | nil => intro n i; simp
  | cons a l ih =>
    intro n i
    have hlen : (a :: l).length = l.length + 1 := rfl
    cases hQ : Q a with
    | true =>
      simp only [List.enumFrom, List.filter_cons, hQ, if_true, List.map_cons,
        List.mem_cons]
      constructor
      · rintro (rfl | hm)
        · exact ⟨0, by omega, by omega, hQ⟩
        · obtain ⟨j, hj, hij, hQj⟩ := (ih (n + 1) i).1 hm
          exact ⟨j + 1, by omega, by omega, hQj⟩
      · rintro ⟨j, hj, rfl, hQj⟩
        cases j with
        | zero => exact Or.inl (by omega)
        | succ k =>
          have hk : k < l.length := by omega
          exact Or.inr ((ih (n + 1) (n + (k + 1))).2 ⟨k, hk, by omega, hQj⟩)
    | false =>
      simp only [List.enumFrom, List.filter_cons, hQ, Bool.false_eq_true,
        if_false]
      rw [ih (n + 1) i]
      constructor
      · rintro ⟨j, hj, rfl, hQj⟩
        exact ⟨j + 1, by omega, by omega, hQj⟩
      · rintro ⟨j, hj, rfl, hQj⟩
        cases j with
        | zero =>
          have hQa : Q a = true := hQj
          rw [hQ] at hQa
          exact absurd hQa (by simp)
        | succ k =>
          have hk : k < l.length := by omega
          exact ⟨k, hk, by omega, hQj⟩

lemma fn_refs_pairwise (feed : Feed) (pat : List Char) :
    (FeedView.filter feed pat).refs.Pairwise (· < ·) := by
  unfold FeedView.filter
  split
  · exact List.pairwise_lt_range _
  · have hsub : List.Sublist
        (((feed.notes.enum).filter
          (fun p => strContains p.2.text pat)).map Prod.fst)
        ((feed.notes.enum).map Prod.fst) :=
      List.Sublist.map _ (List.filter_sublist _)
    have hp : ((feed.notes.enum).map Prod.fst).Pairwise (· < ·) := by
      show ((List.enumFrom 0 feed.notes).map Prod.fst).Pairwise (· < ·)
      rw [List.enumFrom_map_fst, List.range'_eq_map_range]
      refine (List.pairwise_map).2 ?_
      refine (List.pairwise_lt_range _).imp ?_
      intro a b hab
      omega
    exact hp.sublist hsub

lemma fn_filter_refs_length (feed : Feed) (pat : List Char)
    (hpat : ¬ pat = []) :
    (FeedView.filter feed pat).refs.length =
      feed.notes.countP (fun note => strContains note.text pat) := by
  unfold FeedView.filter
  rw [if_neg hpat]
  show (((List.enumFrom 0 feed.notes).filter
    (fun p => strContains p.2.text pat)).map Prod.fst).length = _
  rw [List.length_map]
  exact fn_enumFrom_filter_length (fun note => strContains note.text pat)
    feed.notes 0

lemma fn_mem_filter_refs (feed : Feed) (pat : List Char) (hpat : ¬ pat = [])
    (i : Nat) :
    i ∈ (FeedView.filter feed pat).refs ↔
      ∃ h : i < feed.notes.length,
        strContains (feed.notes.get ⟨i, h⟩).text pat = true := by
  unfold FeedView.filter
  rw [if_neg hpat]
  show i ∈ ((List.enumFrom 0 feed.notes).filter
    (fun p => strContains p.2.text pat)).map Prod.fst ↔ _
  rw [fn_mem_enumFrom_filter (fun note => strContains note.text pat)
    feed.notes 0 i]
  constructor
  · rintro ⟨j, hj, hij, hQj⟩
    have hji : j = i := by omega
    subst hji
    exact ⟨hj, hQj⟩
  · rintro ⟨h, hQ⟩
    exact ⟨i, h, by omega, hQ⟩

lemma fn_countP_eraseIdx {α : Type} (Q : α → Bool) (l : List α) (i : Nat)
    (h : i < l.length) (hQ : Q (l.get ⟨i, h⟩) = true) :
    (l.eraseIdx i).countP Q + 1 = l.countP Q := by
  induction l generalizing i with
  | nil => simp at h
  | cons a l ih =>
    cases i with
    | zero =>
      have hQa : Q a = true := hQ
      simp [List.eraseIdx_cons_zero, List.countP_cons, hQa]
    | succ k =>
      have h2 : k < l.length := Nat.lt_of_succ_lt_succ h
      have hrec := ih k h2 hQ
      simp only [List.eraseIdx_cons_succ, List.countP_cons]
      omega

lemma fn_refs_length_eraseIdx (feed : Feed) (pat : List Char) (idx : Nat)
    (hidx : idx < (FeedView.filter feed pat).refs.length) :
    (FeedView.filter
        ⟨feed.notes.eraseIdx
          ((FeedView.filter feed pat).refs.get ⟨idx, hidx⟩)⟩
        pat).refs.length + 1 =
      (FeedView.filter feed pat).refs.length := by
  have hmem : (FeedView.filter feed pat).refs.get ⟨idx, hidx⟩ ∈
      (FeedView.filter feed pat).refs := List.get_mem _ _ _
  generalize hi : (FeedView.filter feed pat).refs.get ⟨idx, hidx⟩ = i at hmem ⊢
  by_cases hpat : pat = []
  · subst hpat
    have hrefs : (FeedView.filter feed []).refs =
        List.range feed.notes.length := by
      unfold FeedView.filter
      rw [if_pos rfl]
    have e1 : (FeedView.filter ⟨feed.notes.eraseIdx i⟩ []).refs =
        List.range (feed.notes.eraseIdx i).length := by
      unfold FeedView.filter
      rw [if_pos rfl]
    rw [hrefs] at hmem
    have hlt : i < feed.notes.length := List.mem_range.1 hmem
    have hlen2 : (feed.notes.eraseIdx i).length = feed.notes.length - 1 := by
      rw [List.length_eraseIdx, if_pos hlt]
    rw [e1, hrefs, List.length_range, List.length_range, hlen2]
    omega
  · obtain ⟨h, hQ⟩ := (fn_mem_filter_refs feed pat hpat i).1 hmem
    rw [fn_filter_refs_length feed pat hpat,
      fn_filter_refs_length ⟨feed.notes.eraseIdx i⟩ pat hpat]
    exact fn_countP_eraseIdx _ feed.notes i h hQ

/-- C3: for every store and filter string `p`, `FeedView::filter` returns
a strictly increasing sequence of positions; if `p` is empty the sequence
is exactly `0..len(store)`, and otherwise a position is included if and
only if the note at that position has text containing `p` as a literal,
case-sensitive substring. -/
theorem c3_feedview_filter_spec (feed : Feed) (pat : List Char) :
    (FeedView.filter feed pat).refs.Pairwise (· < ·) ∧
    (pat = [] →
      (FeedView.filter feed pat).refs = List.range feed.notes.length) ∧
    (pat ≠ [] → ∀ i : Nat,
      i ∈ (FeedView.filter feed pat).refs ↔
        ∃ h : i < feed.notes.length,
          pat <:+: (feed.notes.get ⟨i, h⟩).text) := by
  refine ⟨fn_refs_pairwise feed pat, ?_, ?_⟩
  · intro hp
    unfold FeedView.filter
    rw [if_pos hp]
  · intro hp i
    rw [fn_mem_filter_refs feed pat hp i]
    constructor
    · rintro ⟨h, hc⟩
      exact ⟨h, (fn_strContains_iff _ _).1 hc⟩
    · rintro ⟨h, hc⟩
      exact ⟨h, (fn_strContains_iff _ _).2 hc⟩

/-- Witness for C3 at a concrete store and filter: notes `"x"`, `"ay"`
with filter `"a"`; the refs are strictly increasing and position 1 is
included because `"ay"` contains `"a"`. -/
theorem c3_feedview_filter_spec_witness :
    (FeedView.filter ⟨[⟨['x'], 0⟩, ⟨['a', 'y'], 1⟩]⟩ ['a']).refs.Pairwise
      (· < ·) ∧
    (1 : Nat) ∈ (FeedView.filter ⟨[⟨['x'], 0⟩, ⟨['a', 'y'], 1⟩]⟩ ['a']).refs :=
  ⟨(c3_feedview_filter_spec ⟨[⟨['x'], 0⟩, ⟨['a', 'y'], 1⟩]⟩ ['a']).1,
   ((c3_feedview_filter_spec ⟨[⟨['x'], 0⟩, ⟨['a', 'y'], 1⟩]⟩ ['a']).2.2
      (by decide) 1).2 ⟨by decide, by decide⟩⟩

/-- C4: in any reachable feed-browsing state with Selection Cursor
`some idx` (in bounds, with the feed view the current recomputation), the
two-key delete sequence with matching confirm key removes exactly the
note referenced by the selected feed-view entry, recomputes the view
(whose length drops by exactly one), and — after the render pass's
re-clamp — leaves the Selection Cursor at `max(idx - 1, 0)` if the
recomputed view is non-empty and `none` if it is empty. -/
theorem c4_delete_selected_note (now : Nat) (s : AppState) (idx : Nat)
    (b1 b2 : Bool) (rest : List Input)
    (hfocus : s.focus = Focus.feed)
    (hsel : s.selected = some idx)
    (hidx : idx < s.feedView.refs.length)
    (hinv : s.feedView = FeedView.filter s.feed s.filter) :
    ∃ s2,
      mainStep now s (⟨Key.char 'd', b1⟩ :: ⟨Key.char 'd', b2⟩ :: rest) =
        StepResult.next s2 rest ∧
      s2.feed.notes =
        s.feed.notes.eraseIdx (s.feedView.refs.get ⟨idx, hidx⟩) ∧
      s2.feedView = FeedView.filter s2.feed s.filter ∧
      s2.feedView.refs.length + 1 = s.feedView.refs.length ∧
      clampSelection s2.feedView.refs.length s2.selected =
        (if s2.feedView.refs.length = 0 then none else some (idx - 1)) := by
  obtain ⟨feed, fv, focus, sel, ta, filt, imode, emode⟩ := s
  dsimp only at hfocus hsel hidx hinv ⊢
  subst hfocus
  subst hsel
  subst hinv
  have hget : (FeedView.filter feed filt).refs.get? idx =
      some ((FeedView.filter feed filt).refs.get ⟨idx, hidx⟩) :=
    List.get?_eq_get hidx
  refine
    ⟨{ feed :=
         ⟨feed.notes.eraseIdx
           ((FeedView.filter feed filt).refs.get ⟨idx, hidx⟩)⟩,
       feedView :=
         FeedView.filter
           ⟨feed.notes.eraseIdx
             ((FeedView.filter feed filt).refs.get ⟨idx, hidx⟩)⟩
           filt,
       focus := Focus.feed, selected := some (idx - 1), textarea := ta,
       filter := filt, inputmode := imode, feedEditingMode := emode },
     ?_, rfl, rfl, ?_, ?_⟩
  · simp only [mainStep, hget, listPrevious]
    rfl
  · exact fn_refs_length_eraseIdx feed filt idx hidx
  · dsimp only
    have hlen := fn_refs_length_eraseIdx feed filt idx hidx
    generalize hG : (FeedView.filter
        ⟨feed.notes.eraseIdx
          ((FeedView.filter feed filt).refs.get ⟨idx, hidx⟩)⟩
        filt).refs.length = L at hlen ⊢
    by_cases hz : L = 0
    · simp [clampSelection, hz]
    · have hmin : min (idx - 1) (L - 1) = idx - 1 := by omega
      simp [clampSelection, hz, hmin]

/-- Witness for C4: in the concrete two-note state with entry 1 selected,
`d` `d` deletes the second note, the view length drops from 2 to 1, and
the re-clamped Selection Cursor is `some 0`. -/
theorem c4_delete_selected_note_witness :
    ∃ s2,
      mainStep 0 c4WitState
          [⟨Key.char 'd', false⟩, ⟨Key.char 'd', false⟩] =
        StepResult.next s2 [] ∧
      s2.feed.notes = [⟨['a'], 0⟩] ∧
      s2.feedView.refs.length + 1 = 2 ∧
      clampSelection s2.feedView.refs.length s2.selected = some 0 := by
  obtain ⟨s2, h1, h2, h3, h4, h5⟩ :=
    c4_delete_selected_note 0 c4WitState 1 false false [] rfl rfl
      (by decide) (by decide)
  refine ⟨s2, h1, ?_, ?_, ?_⟩
  · rw [h2]
    decide
  · rw [h4]
    decide
  · have hL : s2.feedView.refs.length = 1 := by
      have hc : c4WitState.feedView.refs.length = 2 := by decide
      omega
    rw [hL] at h5 ⊢
    simpa using h5

/-- C5: committing a new-note edit session (the `W` save chord in normal
mode with Editing Target `new`) inserts exactly one note at store
position 0 whose text equals the buffer's lines joined by newlines,
shifts every existing note's position up by one without reordering, and
returns focus to feed browsing. -/
theorem c5_commit_new_inserts_front (now : Nat) (s : AppState)
    (rest : List Input) (b : Bool)
    (hfocus : s.focus = Focus.newNote)
    (hmode : s.inputmode = InputMode.normal)
    (htarget : s.feedEditingMode = FeedEditingMode.new) :
    ∃ s2,
      mainStep now s (⟨Key.char 'W', b⟩ :: rest) = StepResult.next s2 rest ∧
      s2.feed.notes =
        { text := joinNl s.textarea.lines, date := now } :: s.feed.notes ∧
      s2.feed.notes.length = s.feed.notes.length + 1 ∧
      (∀ k : Nat, s2.feed.notes.get? (k + 1) = s.feed.notes.get? k) ∧
      s2.focus = Focus.feed := by
  obtain ⟨feed, fv, focus, sel, ta, filt, imode, emode⟩ := s
  dsimp only at hfocus hmode htarget ⊢
  subst hfocus
  subst hmode
  subst htarget
  refine
    ⟨{ feed := ⟨{ text := joinNl ta.lines, date := now } :: feed.notes⟩,
       feedView :=
         FeedView.filter
           ⟨{ text := joinNl ta.lines, date := now } :: feed.notes⟩ filt,
       focus := Focus.feed, selected := sel, textarea := ta, filter := filt,
       inputmode := InputMode.normal, feedEditingMode := FeedEditingMode.new },
     ?_, rfl, rfl, ?_, rfl⟩
  · simp only [mainStep]
    rfl
  · intro k
    rfl

/-- Witness for C5: committing the buffer `"hi"` over the empty store
yields exactly the one-note store `["hi"]` with focus back on the feed. -/
theorem c5_commit_new_inserts_front_witness :
    ∃ s2,
      mainStep 7 c5WitState [⟨Key.char 'W', false⟩] = StepResult.next s2 [] ∧
      s2.feed.notes = [{ text := ['h', 'i'], date := 7 }] ∧
      s2.focus = Focus.feed := by
  obtain ⟨s2, h1, h2, h3, h4, h5⟩ :=
    c5_commit_new_inserts_front 7 c5WitState [] false rfl rfl rfl
  refine ⟨s2, h1, ?_, h5⟩
  rw [h2]
  decide

/-- C6: abandoning an edit session (backspace in normal mode, from the
note editor or the filter editor) leaves the note store, the filter
string and the feed view identical to their values before the key, and
returns focus to feed browsing; no store mutation occurs. -/
theorem c6_abandon_preserves_store (now : Nat) (s : AppState)
    (rest : List Input) (b : Bool)
    (hmode : s.inputmode = InputMode.normal)
    (hfocus : s.focus = Focus.newNote ∨ s.focus = Focus.filter) :
    ∃ s2,
      mainStep now s (⟨Key.backspace, b⟩ :: rest) = StepResult.next s2 rest ∧
      s2.feed = s.feed ∧ s2.filter = s.filter ∧ s2.feedView = s.feedView ∧
      s2.focus = Focus.feed := by
  obtain ⟨feed, fv, focus, sel, ta, filt, imode, emode⟩ := s
  dsimp only at hmode hfocus ⊢
  subst hmode
  rcases hfocus with h | h <;> subst h
  · exact ⟨_, by simp only [mainStep, textarea_event]; rfl, rfl, rfl, rfl, rfl⟩
  · exact ⟨_, by simp only [mainStep, textarea_event]; rfl, rfl, rfl, rfl, rfl⟩

/-- Witness for C6: abandoning an edit session on the concrete one-note
state changes neither store, filter nor view, and focus returns to the
feed. -/
theorem c6_abandon_preserves_store_witness :
    ∃ s2,
      mainStep 0 c6WitState [⟨Key.backspace, false⟩] =
        StepResult.next s2 [] ∧
      s2.feed = c6WitState.feed ∧ s2.filter = c6WitState.filter ∧
      s2.feedView = c6WitState.feedView ∧ s2.focus = Focus.feed :=
  c6_abandon_preserves_store 0 c6WitState [] false rfl (Or.inl rfl)

/-- C7: for every pending multi-key command (feed-view `dd`, buffer
`dd`/`dw`/`db`/`diw`, `gg`, indent `>>`, outdent `<<`), a non-matching
second (or third) key leaves the entire application state unchanged and
is swallowed — consumed from the input queue without being reinterpreted
as a fresh standalone command. -/
theorem c7_bad_continuation_swallowed (now : Nat) :
    (∀ (s : AppState) (selIdx : Nat) (e2 : Input) (rest : List Input)
        (b : Bool),
      s.focus = Focus.feed → s.selected = some selIdx →
      e2.key ≠ Key.char 'd' →
      mainStep now s (⟨Key.char 'd', b⟩ :: e2 :: rest) =
        StepResult.next s rest) ∧
    (∀ (s : AppState) (e2 : Input) (rest : List Input) (b : Bool),
      s.focus = Focus.newNote → s.inputmode = InputMode.normal →
      e2.key ≠ Key.char 'd' → e2.key ≠ Key.char 'w' →
      e2.key ≠ Key.char 'b' → e2.key ≠ Key.char 'i' →
      mainStep now s (⟨Key.char 'd', b⟩ :: e2 :: rest) =
        StepResult.next s rest) ∧
    (∀ (s : AppState) (e3 : Input) (rest : List Input) (b1 b2 : Bool),
      s.focus = Focus.newNote → s.inputmode = InputMode.normal →
      e3.key ≠ Key.char 'w' →
      mainStep now s (⟨Key.char 'd', b1⟩ :: ⟨Key.char 'i', b2⟩ :: e3 :: rest) =
        StepResult.next s rest) ∧
    (∀ (s : AppState) (e2 : Input) (rest : List Input) (b : Bool),
      s.focus = Focus.newNote → s.inputmode = InputMode.normal →
      e2.key ≠ Key.char 'g' →
      mainStep now s (⟨Key.char 'g', b⟩ :: e2 :: rest) =
        StepResult.next s rest) ∧
    (∀ (s : AppState) (e2 : Input) (rest : List Input) (b : Bool),
      s.focus = Focus.newNote → s.inputmode = InputMode.normal →
      e2.key ≠ Key.char '>' →
      mainStep now s (⟨Key.char '>', b⟩ :: e2 :: rest) =
        StepResult.next s rest) ∧
    (∀ (s : AppState) (e2 : Input) (rest : List Input) (b : Bool),
      s.focus = Focus.newNote → s.inputmode = InputMode.normal →
      e2.key ≠ Key.char '<' →
      mainStep now s (⟨Key.char '<', b⟩ :: e2 :: rest) =
        StepResult.next s rest) := by
  refine ⟨?_, ?_, ?_, ?_, ?_, ?_⟩
  · intro s selIdx e2 rest b hfocus hsel hne
    obtain ⟨feed, fv, focus, sel, ta, filt, imode, emode⟩ := s
    dsimp only at hfocus hsel ⊢
    subst hfocus
    subst hsel
    simp only [mainStep, hne, if_false, if_neg hne]
    rfl
  · intro s e2 rest b hfocus hmode h1 h2 h3 h4
    obtain ⟨feed, fv, focus, sel, ta, filt, imode, emode⟩ := s
    dsimp only at hfocus hmode ⊢
    subst hfocus
    subst hmode
    simp only [mainStep, textarea_event, if_neg h1, if_neg h2, if_neg h3,
      if_neg h4]
    rfl
  · intro s e3 rest b1 b2 hfocus hmode h1
    obtain ⟨feed, fv, focus, sel, ta, filt, imode, emode⟩ := s
    dsimp only at hfocus hmode ⊢
    subst hfocus
    subst hmode
    simp only [mainStep, textarea_event, if_neg h1]
    rfl
  · intro s e2 rest b hfocus hmode h1
    obtain ⟨feed, fv, focus, sel, ta, filt, imode, emode⟩ := s
    dsimp only at hfocus hmode ⊢
    subst hfocus
    subst hmode
    simp only [mainStep, textarea_event, if_neg h1]
    rfl
  · intro s e2 rest b hfocus hmode h1
    obtain ⟨feed, fv, focus, sel, ta, filt, imode, emode⟩ := s
    dsimp only at hfocus hmode ⊢
    subst hfocus
    subst hmode
    simp only [mainStep, textarea_event, if_neg h1]
    rfl
  · intro s e2 rest b hfocus hmode h1
    obtain ⟨feed, fv, focus, sel, ta, filt, imode, emode⟩ := s
    dsimp only at hfocus hmode ⊢
    subst hfocus
    subst hmode
    simp only [mainStep, textarea_event, if_neg h1]
    rfl

/-- Witness for C7: on concrete states, each pending command followed by
the non-matching key `x` consumes both keys and leaves the state
untouched. -/
theorem c7_bad_continuation_swallowed_witness :
    mainStep 0 c7FeedState [⟨Key.char 'd', false⟩, ⟨Key.char 'x', false⟩] =
      StepResult.next c7FeedState [] ∧
    mainStep 0 c7BufState [⟨Key.char 'd', false⟩, ⟨Key.char 'x', false⟩] =
      StepResult.next c7BufState [] ∧
    mainStep 0 c7BufState
        [⟨Key.char 'd', false⟩, ⟨Key.char 'i', false⟩,
         ⟨Key.char 'x', false⟩] =
      StepResult.next c7BufState [] ∧
    mainStep 0 c7BufState [⟨Key.char 'g', false⟩, ⟨Key.char 'x', false⟩] =
      StepResult.next c7BufState [] ∧
    mainStep 0 c7BufState [⟨Key.char '>', false⟩, ⟨Key.char 'x', false⟩] =
      StepResult.next c7BufState [] ∧
    mainStep 0 c7BufState [⟨Key.char '<', false⟩, ⟨Key.char 'x', false⟩] =
      StepResult.next c7BufState [] :=
  ⟨(c7_bad_continuation_swallowed 0).1 c7FeedState 0 ⟨Key.char 'x', false⟩
      [] false rfl rfl (by decide),
   (c7_bad_continuation_swallowed 0).2.1 c7BufState ⟨Key.char 'x', false⟩
      [] false rfl rfl (by decide) (by decide) (by decide) (by decide),
   (c7_bad_continuation_swallowed 0).2.2.1 c7BufState ⟨Key.char 'x', false⟩
      [] false false rfl rfl (by decide),
   (c7_bad_continuation_swallowed 0).2.2.2.1 c7BufState
      ⟨Key.char 'x', false⟩ [] false rfl rfl (by decide),
   (c7_bad_continuation_swallowed 0).2.2.2.2.1 c7BufState
      ⟨Key.char 'x', false⟩ [] false rfl rfl (by decide),
   (c7_bad_continuation_swallowed 0).2.2.2.2.2 c7BufState
      ⟨Key.char 'x', false⟩ [] false rfl rfl (by decide)⟩

/-- C1 (code bug): committing the edit session whose captured target is
store position 1 resolves the target through `feed_view.refs` a second
time (`feed.notes[feed_view.refs[i]]`), so with feed view `[1, 2]` it
overwrites the note at store position 2 (`"az"` becomes `"new"`) and
leaves the targeted note at position 1 (`"ay"`) unchanged, instead of
replacing `store[1].text` as the spec requires. -/
theorem c1_edit_commit_targets_wrong_note :
    mainStep 9 c1State [⟨Key.char 'W', false⟩] =
      StepResult.next
        { c1State with
          feed := ⟨[⟨['x'], 0⟩, ⟨['a', 'y'], 1⟩, ⟨['n', 'e', 'w'], 2⟩]⟩,
          focus := Focus.feed }
        [] := by decide

/-- C2 (code bug): the edit-commit branch does not recompute the feed
view.  After committing the buffer `"b"` over the only note (filter
`"a"`), the stored feed view is still `[0]` although a fresh
`FeedView::filter` of the new store and filter is empty. -/
theorem c2_edit_commit_stale_feed_view :
    mainStep 9 c2State [⟨Key.char 'W', false⟩] =
      StepResult.next c2After [] ∧
    c2After.feedView.refs = [0] ∧
    (FeedView.filter c2After.feed c2After.filter).refs = [] := by decide

/-- C8 counterexample: a `File::open` failure other than absence — here
permission denied — is swallowed by the `Err(_)` arm and yields the empty
store with an `ok` result, even though the file's content would not
deserialize; the claim says any non-absence read failure aborts the
process. -/
theorem c8_counterexample_open_failure_not_fatal :
    loadFeed (Except.error IOError.permissionDenied)
        (fun _ : Unit => Except.error ()) = Except.ok Feed.new ∧
    Feed.new.notes = [] := ⟨rfl, rfl⟩

/-- C8 amended: every `File::open` failure — absence or any other open
error — yields the empty store without an error; only failures to read or
deserialize a successfully opened file abort startup (the error
propagates out of `main` before the UI initializes). -/
theorem c8_amended_load_behavior {α ε : Type} :
    (∀ (e : IOError) (parse : α → Except ε Feed),
      loadFeed (Except.error e) parse = Except.ok Feed.new) ∧
    (∀ (file : α) (parse : α → Except ε Feed),
      loadFeed (Except.ok file) parse = parse file) ∧
    Feed.new.notes = [] :=
  ⟨fun _ _ => rfl, fun _ _ => rfl, rfl⟩

/-- C9: for a line with fewer than four leading spaces, the outdent
chord's transformation undoes the indent chord's transformation exactly:
indent prepends four spaces and outdent strips at most four leading
spaces back off. -/
theorem c9_indent_outdent_roundtrip (l : List Char)
    (h : (l.takeWhile (fun c => c = ' ')).length < 4) :
    outdentChars 0 (indentLine l) = l := by
  cases l with
  | nil => rfl
  | cons c r =>
    show outdentChars 0 (' ' :: ' ' :: ' ' :: ' ' :: c :: r) = c :: r
    simp [outdentChars]

/-- Witness for C9: the line `" a"` (one leading space) survives
indent-then-outdent unchanged. -/
theorem c9_indent_outdent_roundtrip_witness :
    (([' ', 'a'] : List Char).takeWhile (fun c => c = ' ')).length < 4 ∧
    outdentChars 0 (indentLine [' ', 'a']) = [' ', 'a'] :=
  ⟨by decide, c9_indent_outdent_roundtrip [' ', 'a'] (by decide)⟩

lemma fn_splitInclusiveNl_flatten : ∀ t : List Char,
    (splitInclusiveNl t).flatten = t := by
  intro t
  induction t with
  | nil => rfl
  | cons c rest ih =>
    by_cases hc : c = '\n'
    · subst hc
      simp only [splitInclusiveNl, if_pos rfl, if_true, List.flatten_cons]
      rw [ih]
      rfl
    · simp only [splitInclusiveNl, if_neg hc]
      cases hS : splitInclusiveNl rest with
      | nil =>
        have hrest : rest = [] := by
          rw [← ih, hS]
          rfl
        subst hrest
        rfl
      | cons l ls =>
        have hflat : (l :: ls).flatten = rest := by
          rw [← hS, ih]
        simp only [List.flatten_cons] at hflat ⊢
        rw [List.cons_append, hflat]

lemma fn_splitInclusiveNl_ne_nil {t : List Char} (h : t ≠ []) :
    splitInclusiveNl t ≠ [] := by
  cases t with
  | nil => exact absurd rfl h
  | cons c rest =>
    by_cases hc : c = '\n'
    · subst hc
      simp [splitInclusiveNl]
    · simp only [splitInclusiveNl, if_neg hc]
      cases splitInclusiveNl rest <;> simp

lemma fn_chunk_ne_nil : ∀ (t : List Char), ∀ l ∈ splitInclusiveNl t,
    l ≠ [] := by
  intro t
  induction t with
  | nil => intro l hl; simp [splitInclusiveNl] at hl
  | cons c rest ih =>
    intro l hl
    by_cases hc : c = '\n'
    · subst hc
      simp only [splitInclusiveNl, if_pos rfl, if_true] at hl
      rcases List.mem_cons.1 hl with rfl | hl2
      · simp
      · exact ih l hl2
    · simp only [splitInclusiveNl, if_neg hc] at hl
      cases hS : splitInclusiveNl rest with
      | nil =>
        rw [hS] at hl
        rcases List.mem_cons.1 hl with rfl | hl2
        · simp
        · simp at hl2
      | cons l0 ls =>
        rw [hS] at hl
        rcases List.mem_cons.1 hl with rfl | hl2
        · simp
        · exact ih l (by rw [hS]; exact List.mem_cons_of_mem _ hl2)

lemma fn_chunks_end_nl : ∀ (t : List Char), t.getLast? = some '\n' →
    ∀ l ∈ splitInclusiveNl t, l.getLast? = some '\n' := by
  intro t
  induction t with
  | nil => intro h; simp at h
  | cons c rest ih =>
    intro h l hl
    by_cases hc : c = '\n'
    · subst hc
      simp only [splitInclusiveNl, if_pos rfl, if_true] at hl
      rcases List.mem_cons.1 hl with rfl | hl2
      · rfl
      · cases hrest : rest with
        | nil =>
          rw [hrest] at hl2
          simp [splitInclusiveNl] at hl2
        | cons r rs =>
          have hlast : rest.getLast? = some '\n' := by
            rw [hrest] at h ⊢
            rw [List.getLast?_cons_cons] at h
            exact h
          exact ih hlast l (hrest ▸ hl2)
    · have hrestne : rest ≠ [] := by
        intro hr
        subst hr
        simp [List.getLast?] at h
        exact hc h
      have hlast : rest.getLast? = some '\n' := by
        cases hrest : rest with
        | nil => exact absurd hrest hrestne
        | cons r rs =>
          rw [hrest] at h
          rw [List.getLast?_cons_cons] at h
          exact h
      simp only [splitInclusiveNl, if_neg hc] at hl
      cases hS : splitInclusiveNl rest with
      | nil => exact absurd hS (fn_splitInclusiveNl_ne_nil hrestne)
      | cons l0 ls =>
        rw [hS] at hl
        rcases List.mem_cons.1 hl with rfl | hl2
        · have hl0 : l0 ∈ splitInclusiveNl rest := by
            rw [hS]
            exact List.mem_cons_self _ _
          have hl0ne : l0 ≠ [] := fn_chunk_ne_nil rest l0 hl0
          have hl0last := ih hlast l0 hl0
          cases l0 with
          | nil => exact absurd rfl hl0ne
          | cons x xs =>
            rw [List.getLast?_cons_cons]
            exact hl0last
        · exact ih hlast l (by rw [hS]; exact List.mem_cons_of_mem _ hl2)

lemma fn_strip_length_lt {l : List Char} (h : l.getLast? = some '\n') :
    (stripLineEnding l).length < l.length := by
  rw [List.getLast?_eq_head?_reverse] at h
  have hlen := List.length_reverse l
  cases hrev : l.reverse with
  | nil => rw [hrev] at h; simp at h
  | cons x xs =>
    rw [hrev] at h hlen
    simp only [List.head?] at h
    have hx : x = '\n' := by injection h with h2
    subst hx
    simp only [List.length_cons] at hlen
    unfold stripLineEnding
    rw [hrev]
    cases xs with
    | nil =>
      simp only [if_pos rfl, if_true, List.length_reverse, List.length_nil]
      omega
    | cons y ys =>
      by_cases hy : y = '\r'
      · subst hy
        simp only [if_pos rfl, if_true, List.length_reverse,
          List.length_cons] at hlen ⊢
        omega
      · simp only [if_pos rfl, if_neg hy, if_true, List.length_reverse,
          List.length_cons] at hlen ⊢
        omega

lemma fn_joinNl_strip_length : ∀ (ls : List (List Char)), ls ≠ [] →
    (∀ l ∈ ls, l.getLast? = some '\n') →
    (joinNl (ls.map stripLineEnding)).length + 1 ≤ ls.flatten.length := by
  intro ls
  induction ls with
  | nil => intro h; exact absurd rfl h
  | cons l ls ih =>
    intro _ hall
    have hl := fn_strip_length_lt (hall l (List.mem_cons_self _ _))
    cases ls with
    | nil =>
      simp only [List.map_cons, List.map_nil, joinNl, List.flatten_cons,
        List.flatten_nil, List.append_nil]
      omega
    | cons l2 ls2 =>
      have h2 := ih (by simp) (fun x hx => hall x (List.mem_cons_of_mem _ hx))
      simp only [List.map_cons, joinNl, List.flatten_cons] at h2 ⊢
      simp only [List.length_append, List.length_cons] at h2 ⊢
      omega

/-- C10: opening an edit session splits the note text with `str::lines()`
and committing rejoins with a single `"\n"`; for any note text ending in
a newline the round trip drops the trailing line ending, so opening and
immediately committing is not the identity on the stored text. -/
theorem c10_open_commit_not_identity (t : List Char)
    (h : t.getLast? = some '\n') :
    openThenCommitText t ≠ t := by
  have htne : t ≠ [] := by
    intro ht
    rw [ht] at h
    simp at h
  have hchunks := fn_splitInclusiveNl_ne_nil htne
  have hlines : rustLines t ≠ [] := by
    unfold rustLines
    intro hmap
    exact hchunks (List.map_eq_nil_iff.1 hmap)
  have hta : (TextArea.new (rustLines t)).lines = rustLines t := by
    unfold TextArea.new
    simp only [if_neg hlines]
  unfold openThenCommitText
  rw [hta]
  intro heq
  have hlen := congrArg List.length heq
  have hb := fn_joinNl_strip_length (splitInclusiveNl t) hchunks
    (fn_chunks_end_nl t h)
  rw [fn_splitInclusiveNl_flatten] at hb
  unfold rustLines at hlen
  omega

/-- Witness for C10: the text `"hi\n"` round-trips to `"hi"`, which
differs from the original. -/
theorem c10_open_commit_not_identity_witness :
    (['h', 'i', '\n'] : List Char).getLast? = some '\n' ∧
    openThenCommitText ['h', 'i', '\n'] ≠ ['h', 'i', '\n'] :=
  ⟨by decide, c10_open_commit_not_identity ['h', 'i', '\n'] (by decide)⟩
